import Mathlib

/-!
Verification of the template-to-rules compiler in
`src/createTransformer.ts` (function `transformTemplate` and its helpers).

CSS text is modelled as `List Char`; template expressions are opaque
handles modelled as `Nat`.  The external CSS collaborators (the nesting
preprocessor and the vendor prefixer) are parameters of the model, as the
specification treats them as pure text-to-text functions.
-/

namespace StyledTransformer

/-- A template segment: literal text or an embedded expression occurrence
(this is the `parts` array built by `traverseExtract`; strings stay
strings, expression nodes are opaque handles). -/
inductive Segment
  | lit (s : List Char)
  | expr (e : Nat)
deriving DecidableEq, Repr

/-- `var START_CODE = 230`. -/
def START_CODE : Nat := 230

/-- `var CLASS_MARKER = String.fromCharCode(NEXT_CODE++)` with
`NEXT_CODE` starting at `START_CODE`, so the class marker is
code point 230. -/
def CLASS_MARKER : Char := Char.ofNat 230

/-- The `parts.map` loop that substitutes each expression occurrence with
the next marker character (`String.fromCharCode(NEXT_CODE++)`) and keeps
literal text verbatim; `k` is the current value of `NEXT_CODE`. -/
def combineFrom : List Segment → Nat → List Char
  | [], _ => []
  | .lit s :: rest, k => s ++ combineFrom rest k
  | .expr _ :: rest, k => Char.ofNat k :: combineFrom rest (k + 1)

/-- `var combined = parts.map(...).join('')`: after the class marker took
code 230, expression markers start at code 231. -/
def combined (parts : List Segment) : List Char :=
  combineFrom parts 231

/-- `var exprParts = []` filled by `parts.map((s) => { if(typeof(s) !==
'string') { exprParts.push(s) } })`. -/
def exprParts (parts : List Segment) : List Nat :=
  parts.filterMap (fun s => match s with | .expr e => some e | _ => none)

/-- `function exprFromChar(c) { return exprParts[c.charCodeAt(0) -
START_CODE - 1] }`; out-of-range access is JS `undefined`, modelled as
`none`. -/
def exprFromChar (ep : List Nat) (c : Char) : Option Nat :=
  ep.get? (c.toNat - START_CODE - 1)

/-- Splitting flattened text back into segments at marker characters
(characters at or above `START_CODE`), resolving each marker through
`exprFromChar`; `acc` is the reversed literal run read so far.  This is
the decoding direction of the spec's round-trip property. -/
def decodeTextAux (ep : List Nat) (acc : List Char) : List Char → Option (List Segment)
  | [] => some [.lit acc.reverse]
  | c :: rest =>
    if START_CODE ≤ c.toNat then
      match exprFromChar ep c, decodeTextAux ep [] rest with
      | some e, some segs => some (.lit acc.reverse :: .expr e :: segs)
      | _, _ => none
    else
      decodeTextAux ep (c :: acc) rest

/-- Decode a flattened text into a literal/expression segment sequence. -/
def decodeText (ep : List Nat) (s : List Char) : Option (List Segment) :=
  decodeTextAux ep [] s

/-- Template-shaped segment lists: a literal, then alternating
(expression, literal) pairs — the shape `traverseExtract` produces. -/
inductive AltSegs : List Segment → Prop
  | single (s : List Char) : AltSegs [.lit s]
  | cons (s : List Char) (e : Nat) (rest : List Segment) :
      AltSegs rest → AltSegs (.lit s :: .expr e :: rest)

/-- Number of expression occurrences in a segment list. -/
def numExprs (parts : List Segment) : Nat :=
  (exprParts parts).length

/-! ### CSS pipeline adapter (`compileCssString`) -/

/-- The synthetic wrapper `'@keyframes x{'`. -/
def kfWrap : List Char := "@keyframes x\x7b".toList

/-- `compileCssString(context, str, singleKeyframe)`:
keyframe bodies are wrapped as `'@keyframes x{' + str + '}'` before the
preprocessor runs, the output must start with the same wrapper and end in
`'}'` (else `throw new Error('Unexpected keyframe compilation')`), the
wrapper is stripped, and finally the vendor prefixer
(`autoprefixer.process(str).css`, here the opaque `vendor`) runs. -/
def compileCssString (pre : List Char → List Char → List Char)
    (vendor : List Char → List Char) (context str : List Char)
    (singleKeyframe : Bool) : Except String (List Char) :=
  let str := if singleKeyframe then kfWrap ++ str ++ ['}'] else str
  let str := pre context str
  if singleKeyframe then
    if str.take kfWrap.length = kfWrap ∧ str.getLast? = some '}' then
      .ok (vendor ((str.drop kfWrap.length).dropLast))
    else
      .error "Unexpected keyframe compilation"
  else
    .ok (vendor str)

/-! ### Rule splitter -/

/-- The brace-depth scan: `level` is the running depth (a JS number, so it
may go negative), `cur` the reversed characters since the last cut, `acc`
the reversed list of closed blocks.  A block is closed whenever a `'}'`
brings the depth to exactly 0.  Returns the blocks and the uncut
remainder (`out.slice(idx)`). -/
def splitLoop : List Char → Int → List Char → List (List Char) →
    List (List Char) × List Char
  | [], _, cur, acc => (acc.reverse, cur.reverse)
  | c :: rest, level, cur, acc =>
    if c = '{' then splitLoop rest (level + 1) (c :: cur) acc
    else if c = '}' then
      if level - 1 = 0 then splitLoop rest (level - 1) [] ((c :: cur).reverse :: acc)
      else splitLoop rest (level - 1) (c :: cur) acc
    else splitLoop rest level (c :: cur) acc

/-- The non-keyframe splitting loop plus the final check
`if(idx !== out.length) throw new Error('Failed to parse css rules')`. -/
def splitRules (out : List Char) : Except String (List (List Char)) :=
  match splitLoop out 0 [] [] with
  | (rules, leftover) =>
    if leftover.isEmpty then .ok rules else .error "Failed to parse css rules"

/-- `if(singleKeyframe) { rules = [out] } else { ...scan... }`. -/
def splitRulesMode (out : List Char) (singleKeyframe : Bool) :
    Except String (List (List Char)) :=
  if singleKeyframe then .ok [out] else splitRules out

/-! ### Position classifier -/

/-- `enum CssPosition` from the source (`ElementRule` is the
declaration-body state). -/
inductive CssPosition
  | None
  | ElementRule
  | ElementSelector
  | MediaSelector
deriving DecidableEq, Repr

/-- One character step of the per-block position machine: first the
`pos === None` dispatch, then the `MediaSelector/ElementSelector/
ElementRule` chain, exactly as the two consecutive `if` statements in the
loop body execute on the same character. -/
def cssStep (pos : CssPosition) (c : Char) : CssPosition :=
  let pos :=
    if pos = CssPosition.None then
      if c = '@' then CssPosition.MediaSelector
      else if c = '}' ∨ c = ' ' then CssPosition.None
      else CssPosition.ElementSelector
    else pos
  if pos = CssPosition.MediaSelector then
    if c = '{' then CssPosition.ElementSelector else pos
  else if pos = CssPosition.ElementSelector then
    if c = '{' then CssPosition.ElementRule else pos
  else if pos = CssPosition.ElementRule then
    if c = '}' then CssPosition.None else pos
  else pos

/-! ### Per-block compilation to terms -/

/-- Output-side JS expression nodes appearing in the generated code:
string literals, identifiers (`cls`, `expr0`, …), the original template
expressions (`exprRef none` is JS `undefined`, from an out-of-range
`exprFromChar`), binary `+`, and JS `undefined` itself. -/
inductive JsExpr
  | undef
  | lit (s : List Char)
  | ident (s : List Char)
  | exprRef (e : Option Nat)
  | add (a b : JsExpr)
deriving DecidableEq, Repr

/-- `var classNameArg = ts.createIdentifier('cls')`. -/
def clsName : List Char := "cls".toList

/-- The identifier `'expr' + exprArgs.length`. -/
def exprName (n : Nat) : List Char :=
  "expr".toList ++ (toString n).toList

/-- JS whitespace characters recognized by `String.trim` / regex `\s`
(ASCII portion; the CSS pipeline emits only ASCII control text). -/
def jsSpace (c : Char) : Bool :=
  c = ' ' || c = '\t' || c = '\n' || c = '\r' || c.toNat = 11 || c.toNat = 12

/-- `accum.trim()`. -/
def trimChars (s : List Char) : List Char :=
  ((s.dropWhile jsSpace).reverse.dropWhile jsSpace).reverse

/-- The test `(/animation(-name)?:\s*$/i).exec(accum.trim())`: after
trimming, `\s*$` can only match the empty suffix, so the regex succeeds
exactly when the trimmed text ends (case-insensitively) in `animation:`
or `animation-name:`. -/
def animMatch (accum : List Char) : Bool :=
  let t := (trimChars accum).map Char.toLower
  "animation:".toList.isSuffixOf t || "animation-name:".toList.isSuffixOf t

/-- Per-block mutable state: the position machine, the pending literal
accumulator and the reversed `addTerms` list. -/
structure BlockSt where
  pos : CssPosition
  accum : List Char
  terms : List JsExpr
deriving DecidableEq, Repr

/-- Compilation-wide mutable state: `exprArgs` (names of the allocated
argument identifiers), `exprVals` (the expressions pushed for them) and
`argsByCode` (marker character → allocated identifier). -/
structure GSt where
  exprArgs : List (List Char)
  exprVals : List (Option Nat)
  argsByCode : List (Char × List Char)
deriving DecidableEq, Repr

/-- The initial compilation-wide state. -/
def gs0 : GSt := ⟨[], [], []⟩

/-- `argsByCode[r[i]]` lookup. -/
def findArg : List (Char × List Char) → Char → Option (List Char)
  | [], _ => none
  | (k, v) :: rest, c => if k = c then some v else findArg rest c

/-- `addAccum()`: push the accumulator as a string literal when it is
non-empty. -/
def pushAccum (accum : List Char) (terms : List JsExpr) : List JsExpr :=
  if accum.isEmpty then terms else .lit accum :: terms

/-- One iteration of the per-character loop of `rules.map((r) => ...)`:
run the position machine, then handle the class marker, expression
markers (class-reference / animation-name promotion, slot reuse via
`argsByCode`, or inline substitution) or accumulate a plain character. -/
def procChar (ep : List Nat) (st : BlockSt × GSt) (c : Char) : BlockSt × GSt :=
  let bs := st.1
  let gs := st.2
  let pos := cssStep bs.pos c
  if c = CLASS_MARKER then
    (⟨pos, [], .ident clsName :: pushAccum bs.accum bs.terms⟩, gs)
  else if START_CODE ≤ c.toNat then
    let isClassRef : Bool := pos = CssPosition.ElementSelector
    let isAnimRef : Bool := (pos = CssPosition.ElementRule : Bool) && animMatch bs.accum
    let accum := if isClassRef then bs.accum ++ ['.'] else bs.accum
    let terms := pushAccum accum bs.terms
    match findArg gs.argsByCode c with
    | some a => (⟨pos, [], .ident a :: terms⟩, gs)
    | none =>
      if isClassRef || isAnimRef then
        let arg := exprName gs.exprArgs.length
        (⟨pos, [], .ident arg :: terms⟩,
         ⟨gs.exprArgs ++ [arg], gs.exprVals ++ [exprFromChar ep c],
          gs.argsByCode ++ [(c, arg)]⟩)
      else
        (⟨pos, [], .exprRef (exprFromChar ep c) :: terms⟩, gs)
  else
    (⟨pos, bs.accum ++ [c], bs.terms⟩, gs)

/-- Process one rule block: fold the per-character loop from the fresh
block state, then the final `addAccum()`; returns the block's `addTerms`
(in order) and the updated compilation-wide state. -/
def classifyBlock (ep : List Nat) (gs : GSt) (r : List Char) :
    List JsExpr × GSt :=
  let res := r.foldl (procChar ep) (⟨CssPosition.None, [], []⟩, gs)
  ((pushAccum res.1.accum res.1.terms).reverse, res.2)

/-- `rules.map((r) => ...)` threading the shared state through blocks in
order. -/
def classifyRules (ep : List Nat) (gs : GSt) :
    List (List Char) → List (List JsExpr) × GSt
  | [] => ([], gs)
  | r :: rest =>
    let first := classifyBlock ep gs r
    let res := classifyRules ep first.2 rest
    (first.1 :: res.1, res.2)

/-! ### Shape optimizer -/

/-- The final `tmpl` node: a plain expression (collapsed single rule or
keyframe body), an array literal of rules, or the arrow function whose
body is the array literal of rules. -/
inductive Tmpl
  | node (e : JsExpr)
  | arrayLit (es : List JsExpr)
  | arrow (params : List (List Char)) (body : List JsExpr)
deriving DecidableEq, Repr

/-- The value returned by `transformTemplate`: `{ tmpl, args }`. -/
structure Output where
  tmpl : Tmpl
  args : List (Option Nat)
deriving DecidableEq, Repr

/-- `addUpRules()` for one rule: left-associated `ts.createAdd` chain
(`undefined` when the term list is empty, as `arr[0]` would be in JS). -/
def addUp : List JsExpr → JsExpr
  | [] => .undef
  | x :: xs => xs.foldl JsExpr.add x

/-- The per-rule test `r[0] === CLASS_MARKER && r.lastIndexOf(CLASS_MARKER)
=== 0`: the class marker is the first character and occurs nowhere else. -/
def simpleRule (r : List Char) : Bool :=
  match r with
  | [] => false
  | c :: rest => c = CLASS_MARKER && !(rest.contains CLASS_MARKER)

/-- The `allSimple`/`isSuperSimple` loop over the raw rule strings:
`allSimple` fails (with an early break) on the first rule not passing
`simpleRule`; `isSuperSimple` records that every inspected rule has `'{'`
directly after the class marker. -/
def simpleScan : List (List Char) → Bool × Bool
  | [] => (true, true)
  | r :: rest =>
    if simpleRule r then
      let res := simpleScan rest
      (res.1, (r.get? 1 = some '{' : Bool) && res.2)
    else (false, true)

/-- The `.text` field of a node: string literals and identifiers have
one, other nodes yield JS `undefined` (`none`). -/
def textOf : JsExpr → Option (List Char)
  | .lit s => some s
  | .ident s => some s
  | _ => none

/-- Assignment to the `.text` field of a literal or identifier node. -/
def setText (e : JsExpr) (s : List Char) : JsExpr :=
  match e with
  | .lit _ => .lit s
  | .ident _ => .ident s
  | e => e

/-- `rn.splice(0, 1)` guarded by `if(rn[0] !== classNameArg) throw new
Error('Unexpected!')`. -/
def spliceCls (rn : List JsExpr) : Except String (List JsExpr) :=
  match rn with
  | t :: rest =>
    if t = .ident clsName then .ok rest else .error "Unexpected!"
  | [] => .error "Unexpected!"

/-- The two `if(collapseSingle)` blocks: strip the leading `'{'` of the
first term's text (else `'Unexpected 1!'`), strip the trailing `'}'` of
the last term's text (else `'Unexpected 2!'`), and drop the last term if
its text became empty.  Reading `.text` of a node that has none is a JS
`TypeError`. -/
def collapseRule (rn : List JsExpr) : Except String (List JsExpr) :=
  match rn with
  | [] => .error "TypeError"
  | t :: rest =>
    match textOf t with
    | none => .error "TypeError"
    | some txt =>
      match txt with
      | '{' :: txtrest =>
        let rn1 := setText t txtrest :: rest
        match rn1.getLast? with
        | none => .error "TypeError"
        | some lastT =>
          match textOf lastT with
          | none => .error "TypeError"
          | some ltxt =>
            match ltxt.getLast? with
            | some '}' =>
              .ok (if (ltxt.dropLast).isEmpty then rn1.dropLast
                   else rn1.dropLast ++ [setText lastT ltxt.dropLast])
            | _ => .error "Unexpected 2!"
      | _ => .error "Unexpected 1!"

/-- The body of `ruleNodes.map(...)` in the all-simple branch. -/
def mutateRule (collapseSingle : Bool) (rn : List JsExpr) :
    Except String (List JsExpr) := do
  let rest ← spliceCls rn
  if collapseSingle then collapseRule rest else pure rest

/-- The whole all-simple mutation pass (first thrown error wins, as in
JS). -/
def mutateAll (collapseSingle : Bool) (l : List (List JsExpr)) :
    Except String (List (List JsExpr)) :=
  l.mapM (mutateRule collapseSingle)

/-- The fallback output: `ts.createArrowFunction` with the `cls`
parameter followed by the allocated argument identifiers, body
`ts.createArrayLiteral(ruleNodes)`, and `args: exprVals`. -/
def functionalShape (gs : GSt) (ruleNodes : List (List JsExpr)) : Output :=
  ⟨.arrow (clsName :: gs.exprArgs) (ruleNodes.map addUp), gs.exprVals⟩

/-- Everything in `transformTemplate` after the rules are split: classify
every block, filter out term-less rules, then choose the keyframe,
static/collapsed, or functional output shape. -/
def buildShape (ep : List Nat) (rules : List (List Char))
    (singleKeyframe : Bool) : Except String Output :=
  let classified := classifyRules ep gs0 rules
  let gs := classified.2
  let ruleNodes := classified.1.filter (fun a => !a.isEmpty)
  if singleKeyframe then
    if gs.exprVals.length > 0 then
      .error "Did not expect component references in keyframes"
    else if ruleNodes.length ≠ 1 then
      .error "Unexpected keyframes count"
    else
      .ok ⟨.node (addUp (ruleNodes.headD [])), []⟩
  else if gs.exprVals.length = 0 then
    let scan := simpleScan rules
    if scan.1 then
      let collapseSingle := (ruleNodes.length = 1 : Bool) && scan.2
      match mutateAll collapseSingle ruleNodes with
      | .error e => .error e
      | .ok mutated =>
        if collapseSingle then .ok ⟨.node (addUp (mutated.headD [])), []⟩
        else .ok ⟨.arrayLit (mutated.map addUp), []⟩
    else .ok (functionalShape gs ruleNodes)
  else .ok (functionalShape gs ruleNodes)

/-- `transformTemplate(t, singleKeyframe)` from the extracted segment
list onwards, with the external preprocessor and vendor prefixer as
parameters: encode the segments, run the CSS pipeline under the class
marker context, split into rules, and build the output shape. -/
def transformTemplate (pre : List Char → List Char → List Char)
    (vendor : List Char → List Char) (parts : List Segment)
    (singleKeyframe : Bool) : Except String Output := do
  let out ← compileCssString pre vendor [CLASS_MARKER] (combined parts) singleKeyframe
  let rules ← splitRulesMode out singleKeyframe
  buildShape (exprParts parts) rules singleKeyframe

/-! ### Concrete scenario instantiations of the external collaborators -/

/-- A preprocessor behaving as on the spec's scenario inputs: wrap the
whole text in a rule under the context selector. -/
def stylisScenario (ctx s : List Char) : List Char :=
  ctx ++ '{' :: (s ++ ['}'])

/-- The segment list of the template `color: ${colorVar};` with
`colorVar` as handle 0. -/
def c1parts : List Segment :=
  [.lit "color: ".toList, .expr 0, .lit ";".toList]

/-! ### Helper lemmas -/

/-- Decidable equality of `Except` values (needed to `decide` concrete
runs of the compiler). -/
def exceptDecEq {ε α : Type} [DecidableEq ε] [DecidableEq α] :
    DecidableEq (Except ε α) := fun x y =>
  match x, y with
  | .ok a, .ok b =>
    if h : a = b then .isTrue (by rw [h]) else .isFalse (fun hc => by cases hc; exact h rfl)
  | .error a, .error b =>
    if h : a = b then .isTrue (by rw [h]) else .isFalse (fun hc => by cases hc; exact h rfl)
  | .ok _, .error _ => .isFalse (fun hc => by cases hc)
  | .error _, .ok _ => .isFalse (fun hc => by cases hc)

instance {ε α : Type} [DecidableEq ε] [DecidableEq α] : DecidableEq (Except ε α) :=
  exceptDecEq

theorem toNat_ofNat_of_lt {n : Nat} (h : n < 55296) : (Char.ofNat n).toNat = n := by
  have hv : n.isValidChar := Or.inl h
  simp only [Char.ofNat, hv, dif_pos, Char.ofNatAux, Char.toNat]
  rfl

theorem cssStep_media (c : Char) :
    cssStep CssPosition.MediaSelector c =
      if c = '{' then CssPosition.ElementSelector else CssPosition.MediaSelector := by
  by_cases h : c = '{' <;> simp [cssStep, h]

theorem cssStep_sel (c : Char) :
    cssStep CssPosition.ElementSelector c =
      if c = '{' then CssPosition.ElementRule else CssPosition.ElementSelector := by
  by_cases h : c = '{' <;> simp [cssStep, h]

theorem cssStep_rule (c : Char) :
    cssStep CssPosition.ElementRule c =
      if c = '}' then CssPosition.None else CssPosition.ElementRule := by
  by_cases h : c = '}' <;> simp [cssStep, h]

theorem cssStep_none (c : Char) :
    cssStep CssPosition.None c =
      (if c = '@' then CssPosition.MediaSelector
       else if c = '}' ∨ c = ' ' then CssPosition.None
       else if c = '{' then CssPosition.ElementRule
       else CssPosition.ElementSelector) := by
  by_cases h1 : c = '@'
  · subst h1; simp [cssStep]
  · by_cases h2 : c = '}' ∨ c = ' '
    · rcases h2 with h2 | h2 <;> subst h2 <;> simp_all [cssStep]
    · by_cases h3 : c = '{'
      · subst h3; simp_all [cssStep]
      · simp [cssStep, h1, h2, h3]

theorem splitLoop_flatten (l : List Char) : ∀ (level : Int) (cur : List Char)
    (acc : List (List Char)),
    (splitLoop l level cur acc).1.flatten ++ (splitLoop l level cur acc).2 =
      acc.reverse.flatten ++ cur.reverse ++ l := by
  induction l with
  | nil => intro level cur acc; simp [splitLoop]
  | cons c rest ih =>
    intro level cur acc
    simp only [splitLoop]
    split_ifs with h1 h2 h3 <;> rw [ih] <;> simp

theorem splitLoop_blocks_ne_nil (l : List Char) : ∀ (level : Int) (cur : List Char)
    (acc : List (List Char)), (∀ b ∈ acc, b ≠ []) →
    ∀ b ∈ (splitLoop l level cur acc).1, b ≠ [] := by
  induction l with
  | nil => intro level cur acc hacc; simpa [splitLoop] using hacc
  | cons c rest ih =>
    intro level cur acc hacc
    simp only [splitLoop]
    split_ifs with h1 h2 h3
    · exact ih _ _ _ hacc
    · refine ih _ _ _ ?_
      intro b hb
      rcases List.mem_cons.mp hb with hb | hb
      · subst hb; simp
      · exact hacc b hb
    · exact ih _ _ _ hacc
    · exact ih _ _ _ hacc

theorem exprParts_cons_lit (s : List Char) (rest : List Segment) :
    exprParts (.lit s :: rest) = exprParts rest := by
  simp [exprParts, List.filterMap_cons]

theorem exprParts_cons_expr (e : Nat) (rest : List Segment) :
    exprParts (.expr e :: rest) = e :: exprParts rest := by
  simp [exprParts, List.filterMap_cons]

/-- Prepend text to the first (literal) segment. -/
def consFirstLit (p : List Char) : List Segment → List Segment
  | .lit s :: rest => .lit (p ++ s) :: rest
  | l => l

theorem consFirstLit_nil : ∀ l : List Segment, consFirstLit [] l = l := by
  intro l
  match l with
  | [] => rfl
  | .lit s :: rest => simp [consFirstLit]
  | .expr e :: rest => rfl

theorem decodeTextAux_lit (ep : List Nat) (s : List Char) :
    ∀ acc, (∀ c ∈ s, c.toNat < START_CODE) →
    decodeTextAux ep acc s = some [.lit (acc.reverse ++ s)] := by
  induction s with
  | nil => intro acc h; simp [decodeTextAux]
  | cons c rest ih =>
    intro acc h
    have hc : c.toNat < START_CODE := h c (by simp)
    simp only [decodeTextAux]
    rw [if_neg (by omega)]
    rw [ih (c :: acc) (fun x hx => h x (by simp [hx]))]
    simp

theorem decodeTextAux_append (ep : List Nat) (s : List Char) :
    ∀ (acc t : List Char), (∀ c ∈ s, c.toNat < START_CODE) →
    decodeTextAux ep acc (s ++ t) = decodeTextAux ep (s.reverse ++ acc) t := by
  induction s with
  | nil => intro acc t h; simp
  | cons c rest ih =>
    intro acc t h
    have hc : c.toNat < START_CODE := h c (by simp)
    simp only [List.cons_append, decodeTextAux]
    rw [if_neg (by omega)]
    simp only [List.append_eq]
    rw [ih (c :: acc) t (fun x hx => h x (by simp [hx]))]
    simp

theorem decode_combineFrom {parts : List Segment} (halt : AltSegs parts) :
    ∀ (k : Nat) (ep : List Nat) (acc : List Char),
    231 ≤ k → k + numExprs parts ≤ 55296 →
    (∀ j, j < numExprs parts → ep.get? (k - 231 + j) = (exprParts parts).get? j) →
    (∀ s, Segment.lit s ∈ parts → ∀ c ∈ s, c.toNat < START_CODE) →
    decodeTextAux ep acc (combineFrom parts k) = some (consFirstLit acc.reverse parts) := by
  induction halt with
  | single s =>
    intro k ep acc hk hb hep hlit
    have hcomb : combineFrom [Segment.lit s] k = s := by simp [combineFrom]
    rw [hcomb, decodeTextAux_lit ep s acc (hlit s (by simp))]
    rfl
  | cons s e rest hrest ih =>
    intro k ep acc hk hb hep hlit
    have hM : numExprs (Segment.lit s :: Segment.expr e :: rest) = numExprs rest + 1 := by
      simp [numExprs, exprParts_cons_lit, exprParts_cons_expr]
    rw [hM] at hb
    have hk55 : k < 55296 := by omega
    have htn : (Char.ofNat k).toNat = k := toNat_ofNat_of_lt hk55
    have hcomb : combineFrom (Segment.lit s :: Segment.expr e :: rest) k =
        s ++ (Char.ofNat k :: combineFrom rest (k + 1)) := by simp [combineFrom]
    rw [hcomb, decodeTextAux_append ep s _ _ (hlit s (by simp))]
    simp only [decodeTextAux]
    rw [if_pos (by rw [htn]; have hsc : START_CODE = 230 := rfl; omega)]
    have h0 : ep.get? (k - 231) = some e := by
      have h00 := hep 0 (by rw [hM]; omega)
      simpa [exprParts_cons_lit, exprParts_cons_expr] using h00
    have hefc : exprFromChar ep (Char.ofNat k) = some e := by
      have harith : k - START_CODE - 1 = k - 231 := by
        have hsc : START_CODE = 230 := rfl
        omega
      simp only [exprFromChar, htn, harith, h0]
    have hih := ih (k + 1) ep []
      (by omega) (by omega)
      (fun j hj => by
        have hj1 := hep (j + 1) (by rw [hM]; omega)
        have harith : k - 231 + (j + 1) = k + 1 - 231 + j := by omega
        rw [harith] at hj1
        simpa [exprParts_cons_lit, exprParts_cons_expr] using hj1)
      (fun s' hs' => hlit s' (by simp [hs']))
    rw [hefc, hih]
    simp only [List.reverse_nil, consFirstLit_nil]
    simp [consFirstLit]

/-! ### Claim C2: the marker codec round-trip -/

/-- C2: the class marker takes the base code point 230 first, expression
occurrences take the following consecutive code points in segment order;
then for any template-shaped segment list whose literal text stays below
code point 230 (and small enough that markers stay valid code points),
`exprFromChar` maps the i-th marker back to the i-th expression
occurrence, and splitting the flattened text at marker characters
reconstructs the original segment sequence. -/
theorem spec_C2_codec_roundtrip :
    CLASS_MARKER.toNat = START_CODE ∧
    ∀ parts : List Segment, AltSegs parts →
      (∀ s, Segment.lit s ∈ parts → ∀ c ∈ s, c.toNat < START_CODE) →
      231 + numExprs parts ≤ 55296 →
      (∀ (i e : Nat), (exprParts parts).get? i = some e →
        exprFromChar (exprParts parts) (Char.ofNat (231 + i)) = some e) ∧
      decodeText (exprParts parts) (combined parts) = some parts := by
  refine ⟨by decide, ?_⟩
  intro parts halt hlit hb
  constructor
  · intro i e hie
    have hi : i < numExprs parts := by
      obtain ⟨h, -⟩ := List.get?_eq_some.mp hie
      exact h
    have htn : (Char.ofNat (231 + i)).toNat = 231 + i :=
      toNat_ofNat_of_lt (by omega)
    have harith : 231 + i - START_CODE - 1 = i := by
      have hsc : START_CODE = 230 := rfl
      omega
    simp only [exprFromChar, htn, harith, hie]
  · have hd := decode_combineFrom halt 231 (exprParts parts) []
      (le_refl 231) (by omega) (fun j hj => by simp) hlit
    rw [decodeText, combined, hd]
    simp [consFirstLit_nil]

/-- C2 witness: a concrete template `a${e7}b` round-trips. -/
theorem spec_C2_codec_roundtrip_witness :
    exprFromChar (exprParts [Segment.lit "a".toList, Segment.expr 7, Segment.lit "b".toList])
        (Char.ofNat 231) = some 7 ∧
    decodeText (exprParts [Segment.lit "a".toList, Segment.expr 7, Segment.lit "b".toList])
        (combined [Segment.lit "a".toList, Segment.expr 7, Segment.lit "b".toList]) =
      some [Segment.lit "a".toList, Segment.expr 7, Segment.lit "b".toList] := by
  have h := spec_C2_codec_roundtrip.2
    [Segment.lit "a".toList, Segment.expr 7, Segment.lit "b".toList]
    (AltSegs.cons _ 7 _ (AltSegs.single _))
    (by
      intro s hs
      simp only [List.mem_cons, List.not_mem_nil, or_false] at hs
      rcases hs with hs | hs | hs
      · injection hs with hs; subst hs; decide
      · exact absurd hs (by simp)
      · injection hs with hs; subst hs; decide)
    (by decide)
  exact ⟨h.1 0 7 (by decide), h.2⟩

/-! ### Claim C3: the rule splitter -/

/-- C3: in non-keyframe mode the brace-depth scan either fails with
`'Failed to parse css rules'` — exactly when the final cut leaves a
non-empty remainder, i.e. the cut index differs from the text length —
or returns blocks whose concatenation is exactly the input text; in
keyframe mode the whole text is the single block. -/
theorem spec_C3_rule_splitter :
    (∀ out : List Char,
      (splitRules out = .error "Failed to parse css rules" ↔
        (splitLoop out 0 [] []).2 ≠ []) ∧
      (∀ rules, splitRules out = .ok rules → rules.flatten = out)) ∧
    (∀ out : List Char, splitRulesMode out true = .ok [out]) := by
  refine ⟨?_, fun out => rfl⟩
  intro out
  have hj := splitLoop_flatten out 0 [] []
  rcases hsl : splitLoop out 0 [] [] with ⟨rules, leftover⟩
  rw [hsl] at hj
  simp only [splitRules, hsl]
  constructor
  · by_cases h : leftover.isEmpty <;> simp_all [List.isEmpty_iff]
  · intro rs hrs
    by_cases h : leftover.isEmpty
    · simp only [h, if_pos] at hrs
      cases hrs
      simp only [List.isEmpty_iff] at h
      subst h
      simpa using hj
    · simp [h] at hrs

/-- C3 witness: a concrete accepted text whose returned blocks
concatenate back to the input. -/
theorem spec_C3_rule_splitter_witness :
    (["a\x7bb\x7d".toList, "c\x7bd\x7d".toList] : List (List Char)).flatten = "a\x7bb\x7dc\x7bd\x7d".toList :=
  (spec_C3_rule_splitter.1 "a\x7bb\x7dc\x7bd\x7d".toList).2 _ (by decide)

/-! ### Claim C4: the position classifier table -/

/-- C4 counterexample: in state `None` the character `'{'` does change
the state — it lands in `ElementRule` (declaration body), because the
`None` dispatch first moves to `ElementSelector` and the chained check
consumes the same `'{'`. -/
theorem spec_C4_counterexample :
    cssStep CssPosition.None '{' = CssPosition.ElementRule ∧
    CssPosition.ElementRule ≠ CssPosition.None := by
  decide

/-- C4 (amended): the full transition table; as claimed except that in
state `None` the character `'{'` moves to `ElementRule` (declaration
body) rather than causing no transition. -/
theorem spec_C4_classifier_table : ∀ c : Char,
    cssStep CssPosition.None c =
      (if c = '@' then CssPosition.MediaSelector
       else if c = '}' ∨ c = ' ' then CssPosition.None
       else if c = '{' then CssPosition.ElementRule
       else CssPosition.ElementSelector) ∧
    cssStep CssPosition.MediaSelector c =
      (if c = '{' then CssPosition.ElementSelector else CssPosition.MediaSelector) ∧
    cssStep CssPosition.ElementSelector c =
      (if c = '{' then CssPosition.ElementRule else CssPosition.ElementSelector) ∧
    cssStep CssPosition.ElementRule c =
      (if c = '}' then CssPosition.None else CssPosition.ElementRule) :=
  fun c => ⟨cssStep_none c, cssStep_media c, cssStep_sel c, cssStep_rule c⟩

/-! ### Claim C8: keyframe wrapping in the CSS pipeline adapter -/

/-- C8: keyframe compilation wraps the text as `'@keyframes x{' + text +
'}'` before preprocessing, fails with `'Unexpected keyframe compilation'`
exactly unless the processed output starts with that wrapper and ends in
`'}'`, and otherwise strips exactly the wrapper and final `'}'` before
vendor prefixing. -/
theorem spec_C8_keyframe_wrap (pre : List Char → List Char → List Char)
    (vendor : List Char → List Char) (context str : List Char) :
    (compileCssString pre vendor context str true =
        .error "Unexpected keyframe compilation" ↔
      ¬ ((pre context (kfWrap ++ str ++ ['}'])).take kfWrap.length = kfWrap ∧
         (pre context (kfWrap ++ str ++ ['}'])).getLast? = some '}')) ∧
    (∀ res, compileCssString pre vendor context str true = .ok res →
      res = vendor (((pre context (kfWrap ++ str ++ ['}'])).drop
        kfWrap.length).dropLast)) := by
  have heq : compileCssString pre vendor context str true =
      (if (pre context (kfWrap ++ str ++ ['}'])).take kfWrap.length = kfWrap ∧
          (pre context (kfWrap ++ str ++ ['}'])).getLast? = some '}' then
        .ok (vendor (((pre context (kfWrap ++ str ++ ['}'])).drop kfWrap.length).dropLast))
      else .error "Unexpected keyframe compilation") := rfl
  rw [heq]
  by_cases h : (pre context (kfWrap ++ str ++ ['}'])).take kfWrap.length = kfWrap ∧
      (pre context (kfWrap ++ str ++ ['}'])).getLast? = some '}'
  · rw [if_pos h]
    refine ⟨?_, fun res hres => by cases hres; rfl⟩
    simp only [List.append_assoc] at h
    simp [h.1, h.2]
  · rw [if_neg h]
    refine ⟨?_, fun res hres => by cases hres⟩
    simp only [List.append_assoc] at h
    simp only [List.append_assoc]
    simpa using h

/-- C8 witness: a concrete keyframe compilation whose result is the
vendor-prefixed unwrapped body. -/
theorem spec_C8_keyframe_wrap_witness :
    ("a".toList : List Char) =
      id ((((fun (_ s : List Char) => s) [] (kfWrap ++ "a".toList ++ ['}'])).drop
        kfWrap.length).dropLast) :=
  (spec_C8_keyframe_wrap (fun _ s => s) id [] "a".toList).2 "a".toList (by decide)

/-! ### Claims C5 and C6: marker classification and slot interning -/

theorem cssStep_rule_of_marker {c : Char} (hc : START_CODE ≤ c.toNat) :
    cssStep CssPosition.ElementRule c = CssPosition.ElementRule := by
  rw [cssStep_rule, if_neg]
  intro h
  subst h
  revert hc
  decide

/-- C5: an expression marker met in declaration-body position whose
character is not already bound to a slot is promoted to a named argument
slot precisely when the accumulated preceding text, trimmed, ends in
`animation:` or `animation-name:` (case-insensitively, the regex
`/animation(-name)?:\s*$/i`); otherwise it is substituted inline and the
slot state is left untouched. -/
theorem spec_C5_anim_promotion (ep : List Nat) (bs : BlockSt) (gs : GSt) (c : Char)
    (hc : START_CODE ≤ c.toNat) (hcm : c ≠ CLASS_MARKER)
    (hpos : bs.pos = CssPosition.ElementRule)
    (hnb : findArg gs.argsByCode c = none) :
    (((procChar ep (bs, gs) c).2.exprArgs.length = gs.exprArgs.length + 1 ∧
      (procChar ep (bs, gs) c).1.terms.head? =
        some (.ident (exprName gs.exprArgs.length))) ↔ animMatch bs.accum = true) ∧
    (animMatch bs.accum = false →
      (procChar ep (bs, gs) c).2 = gs ∧
      (procChar ep (bs, gs) c).1.terms.head? =
        some (.exprRef (exprFromChar ep c))) := by
  have hstep : cssStep bs.pos c = CssPosition.ElementRule := by
    rw [hpos]; exact cssStep_rule_of_marker hc
  simp only [procChar, hstep, if_neg hcm, if_pos hc, hnb]
  cases ham : animMatch bs.accum <;> simp

/-- C5 witness: `animation:` directly before an unbound marker allocates
a fresh slot. -/
theorem spec_C5_anim_promotion_witness :
    (procChar [7] (⟨CssPosition.ElementRule, "animation:".toList, []⟩, gs0)
        (Char.ofNat 231)).2.exprArgs.length = gs0.exprArgs.length + 1 ∧
    (procChar [7] (⟨CssPosition.ElementRule, "animation:".toList, []⟩, gs0)
        (Char.ofNat 231)).1.terms.head? =
      some (.ident (exprName gs0.exprArgs.length)) :=
  (spec_C5_anim_promotion [7] ⟨CssPosition.ElementRule, "animation:".toList, []⟩
    gs0 (Char.ofNat 231) (by decide) (by decide) rfl rfl).1.mpr (by decide)

/-- The interning invariant on the compilation-wide state: the bound
slots (in binding order) are exactly the allocated identifiers, names
are `expr0, expr1, …` in order, marker keys are distinct, and one value
was pushed per identifier. -/
def GInv (gs : GSt) : Prop :=
  gs.argsByCode.map Prod.snd = gs.exprArgs ∧
  gs.exprArgs = (List.range gs.exprArgs.length).map exprName ∧
  (gs.argsByCode.map Prod.fst).Nodup ∧
  gs.exprVals.length = gs.exprArgs.length

theorem findArg_none_not_mem {l : List (Char × List Char)} {c : Char}
    (h : findArg l c = none) : c ∉ l.map Prod.fst := by
  induction l with
  | nil => simp
  | cons p rest ih =>
    simp only [findArg] at h
    by_cases hp : p.1 = c
    · rw [if_pos hp] at h; cases h
    · rw [if_neg hp] at h
      simp only [List.map_cons, List.mem_cons]
      rintro (hc | hc)
      · exact hp hc.symm
      · exact ih h hc

theorem GInv_snoc {gs : GSt} (c : Char) (v : Option Nat) (h : GInv gs)
    (hc : findArg gs.argsByCode c = none) :
    GInv ⟨gs.exprArgs ++ [exprName gs.exprArgs.length],
          gs.exprVals ++ [v],
          gs.argsByCode ++ [(c, exprName gs.exprArgs.length)]⟩ := by
  obtain ⟨h1, h2, h3, h4⟩ := h
  refine ⟨?_, ?_, ?_, ?_⟩
  · simp [h1]
  · simp only [List.length_append, List.length_singleton]
    rw [List.range_succ]
    simp only [List.map_append, List.map_cons, List.map_nil]
    rw [← h2]
  · simp only [List.map_append, List.map_cons, List.map_nil]
    rw [List.nodup_append]
    refine ⟨h3, List.nodup_singleton c, ?_⟩
    intro x hx hxc
    simp only [List.mem_singleton] at hxc
    subst hxc
    exact findArg_none_not_mem hc hx
  · simp [h4]

theorem procChar_inv (ep : List Nat) (st : BlockSt × GSt) (c : Char)
    (h : GInv st.2) : GInv (procChar ep st c).2 := by
  obtain ⟨bs, gs⟩ := st
  by_cases h1 : c = CLASS_MARKER
  · simpa [procChar, h1] using h
  · by_cases h2 : START_CODE ≤ c.toNat
    · simp only [procChar, if_neg h1, if_pos h2]
      rcases hf : findArg gs.argsByCode c with _ | a
      · simp only [hf]
        split
        · exact GInv_snoc c _ h hf
        · exact h
      · simp only [hf]
        exact h
    · simpa [procChar, h1, h2] using h

theorem foldl_procChar_inv (ep : List Nat) (l : List Char) :
    ∀ st : BlockSt × GSt, GInv st.2 → GInv (l.foldl (procChar ep) st).2 := by
  induction l with
  | nil => intro st h; exact h
  | cons c rest ih =>
    intro st h
    exact ih _ (procChar_inv ep st c h)

theorem classifyBlock_inv (ep : List Nat) (gs : GSt) (r : List Char)
    (h : GInv gs) : GInv (classifyBlock ep gs r).2 :=
  foldl_procChar_inv ep r _ h

theorem classifyRules_inv (ep : List Nat) : ∀ (rules : List (List Char)) (gs : GSt),
    GInv gs → GInv (classifyRules ep gs rules).2 := by
  intro rules
  induction rules with
  | nil => intro gs h; exact h
  | cons r rest ih =>
    intro gs h
    simp only [classifyRules]
    exact ih _ (classifyBlock_inv ep gs r h)

theorem GInv_gs0 : GInv gs0 :=
  ⟨rfl, rfl, List.nodup_nil, rfl⟩

/-- C6: a marker character already bound to a named slot reuses that slot
verbatim and leaves the slot state unchanged; and any functional-shape
output has the class-name parameter first, then exactly one parameter per
distinct bound marker in first-binding order (named `expr0, expr1, …`),
with the trailing call arguments in the same order and number. -/
theorem spec_C6_slot_interning :
    (∀ (ep : List Nat) (bs : BlockSt) (gs : GSt) (c : Char) (a : List Char),
      START_CODE ≤ c.toNat → c ≠ CLASS_MARKER → findArg gs.argsByCode c = some a →
      (procChar ep (bs, gs) c).1.terms.head? = some (.ident a) ∧
      (procChar ep (bs, gs) c).2 = gs) ∧
    (∀ (ep : List Nat) (rules : List (List Char)) (ps : List (List Char))
      (body : List JsExpr) (args : List (Option Nat)),
      buildShape ep rules false = .ok ⟨.arrow ps body, args⟩ →
      ps = clsName :: (classifyRules ep gs0 rules).2.exprArgs ∧
      args = (classifyRules ep gs0 rules).2.exprVals ∧
      (classifyRules ep gs0 rules).2.argsByCode.map Prod.snd =
        (classifyRules ep gs0 rules).2.exprArgs ∧
      ((classifyRules ep gs0 rules).2.argsByCode.map Prod.fst).Nodup ∧
      (classifyRules ep gs0 rules).2.exprArgs =
        (List.range (classifyRules ep gs0 rules).2.exprArgs.length).map exprName ∧
      (classifyRules ep gs0 rules).2.exprVals.length =
        (classifyRules ep gs0 rules).2.exprArgs.length) := by
  constructor
  · intro ep bs gs c a hc hcm hf
    simp only [procChar, if_neg hcm, if_pos hc, hf]
    simp
  · intro ep rules ps body args h
    have hinv := classifyRules_inv ep rules gs0 GInv_gs0
    have hfun : ∀ rn : List (List JsExpr),
        (Except.ok (functionalShape (classifyRules ep gs0 rules).2 rn) :
            Except String Output) =
          Except.ok ⟨Tmpl.arrow ps body, args⟩ →
        ps = clsName :: (classifyRules ep gs0 rules).2.exprArgs ∧
        args = (classifyRules ep gs0 rules).2.exprVals := by
      intro rn hh
      injection hh with hh
      simp only [functionalShape, Output.mk.injEq, Tmpl.arrow.injEq] at hh
      exact ⟨hh.1.1.symm, hh.2.symm⟩
    have hshape : ps = clsName :: (classifyRules ep gs0 rules).2.exprArgs ∧
        args = (classifyRules ep gs0 rules).2.exprVals := by
      simp only [buildShape] at h
      rw [if_neg Bool.false_ne_true] at h
      split at h
      · split at h
        · split at h
          · simp at h
          · split at h <;> simp at h
        · exact hfun _ h
      · exact hfun _ h
    exact ⟨hshape.1, hshape.2, hinv.1, hinv.2.2.1, hinv.2.1, hinv.2.2.2⟩

/-- C6 witness: a subsequent occurrence of an already-bound marker reuses
its slot and allocates nothing. -/
theorem spec_C6_slot_interning_witness :
    (procChar [] (⟨CssPosition.ElementRule, [], []⟩,
        ⟨["expr0".toList], [some 5], [(Char.ofNat 231, "expr0".toList)]⟩)
        (Char.ofNat 231)).1.terms.head? = some (.ident "expr0".toList) ∧
    (procChar [] (⟨CssPosition.ElementRule, [], []⟩,
        ⟨["expr0".toList], [some 5], [(Char.ofNat 231, "expr0".toList)]⟩)
        (Char.ofNat 231)).2 =
      ⟨["expr0".toList], [some 5], [(Char.ofNat 231, "expr0".toList)]⟩ :=
  spec_C6_slot_interning.1 [] ⟨CssPosition.ElementRule, [], []⟩
    ⟨["expr0".toList], [some 5], [(Char.ofNat 231, "expr0".toList)]⟩
    (Char.ofNat 231) "expr0".toList (by decide) (by decide) (by decide)

/-! ### Claim C7: keyframe purity -/

/-- C7: keyframe-mode compilation with any promoted reference
(`exprVals` non-empty) fails with `'Did not expect component references
in keyframes'`; any successful keyframe compilation has zero promoted
references. -/
theorem spec_C7_keyframe_purity :
    (∀ (ep : List Nat) (rules : List (List Char)),
      (classifyRules ep gs0 rules).2.exprVals ≠ [] →
      buildShape ep rules true =
        .error "Did not expect component references in keyframes") ∧
    (∀ (ep : List Nat) (rules : List (List Char)) (o : Output),
      buildShape ep rules true = .ok o →
      (classifyRules ep gs0 rules).2.exprVals = []) := by
  constructor
  · intro ep rules hne
    simp only [buildShape]
    rw [if_pos trivial, if_pos (List.length_pos.mpr hne)]
  · intro ep rules o h
    simp only [buildShape] at h
    rw [if_pos trivial] at h
    by_cases hl : 0 < (classifyRules ep gs0 rules).2.exprVals.length
    · rw [if_pos hl] at h
      cases h
    · exact List.length_eq_zero.mp (by omega)

/-- C7 witness: a keyframe body with a selector-position marker fails. -/
theorem spec_C7_keyframe_purity_witness :
    buildShape [4] [Char.ofNat 231 :: "\x7b\x7d".toList] true =
      .error "Did not expect component references in keyframes" :=
  spec_C7_keyframe_purity.1 [4] [Char.ofNat 231 :: "\x7b\x7d".toList] (by decide)

/-! ### Claim C10: the keyframes count check -/

/-- C10: in keyframe mode, once empty classifications are discarded,
anything other than exactly one remaining block is the error
`'Unexpected keyframes count'`; in particular a keyframes template whose
processed body yields no terms fails with it. -/
theorem spec_C10_keyframes_count :
    (∀ (ep : List Nat) (rules : List (List Char)),
      (classifyRules ep gs0 rules).2.exprVals = [] →
      ((classifyRules ep gs0 rules).1.filter (fun a => !a.isEmpty)).length ≠ 1 →
      buildShape ep rules true = .error "Unexpected keyframes count") ∧
    transformTemplate (fun _ s => s) id [] true =
      .error "Unexpected keyframes count" := by
  constructor
  · intro ep rules hv hn
    simp only [buildShape]
    rw [if_pos trivial, if_neg (by simp [hv]), if_pos hn]
  · rfl

/-- C10 witness: zero remaining blocks trigger the count error. -/
theorem spec_C10_keyframes_count_witness :
    buildShape [] ([] : List (List Char)) true =
      .error "Unexpected keyframes count" :=
  spec_C10_keyframes_count.1 [] [] (by decide) (by decide)

/-! ### Claim C9: removal of term-less rule blocks -/

theorem procChar_ne (ep : List Nat) (st : BlockSt × GSt) (c : Char) :
    (procChar ep st c).1.terms ≠ [] ∨ (procChar ep st c).1.accum ≠ [] := by
  obtain ⟨bs, gs⟩ := st
  by_cases h1 : c = CLASS_MARKER
  · left; simp [procChar, h1]
  · by_cases h2 : START_CODE ≤ c.toNat
    · rcases hf : findArg gs.argsByCode c with _ | a
      · simp only [procChar, if_neg h1, if_pos h2, hf]
        split
        · left; simp
        · left; simp
      · left; simp [procChar, if_neg h1, if_pos h2, hf]
    · right; simp [procChar, h1, h2]

theorem foldl_procChar_ne (ep : List Nat) (l : List Char) :
    ∀ st : BlockSt × GSt, st.1.terms ≠ [] ∨ st.1.accum ≠ [] →
    ((l.foldl (procChar ep) st).1.terms ≠ [] ∨
      (l.foldl (procChar ep) st).1.accum ≠ []) := by
  induction l with
  | nil => intro st h; exact h
  | cons c r ih =>
    intro st _
    rw [List.foldl_cons]
    exact ih _ (procChar_ne ep st c)

theorem pushAccum_ne {accum : List Char} {terms : List JsExpr}
    (h : terms ≠ [] ∨ accum ≠ []) : pushAccum accum terms ≠ [] := by
  unfold pushAccum
  split
  · rcases h with h | h
    · exact h
    · simp_all [List.isEmpty_iff]
  · simp

theorem classifyBlock_empty_iff (ep : List Nat) (gs : GSt) (r : List Char) :
    (classifyBlock ep gs r).1 = [] ↔ r = [] := by
  constructor
  · intro h
    by_contra hr
    obtain ⟨c, rest, rfl⟩ := List.exists_cons_of_ne_nil hr
    simp only [classifyBlock, List.reverse_eq_nil_iff, List.foldl_cons] at h
    have hne := foldl_procChar_ne ep rest (procChar ep (⟨CssPosition.None, [], []⟩, gs) c)
      (procChar_ne ep (⟨CssPosition.None, [], []⟩, gs) c)
    exact pushAccum_ne hne h
  · rintro rfl
    rfl

theorem classifyBlock_nil (ep : List Nat) (gs : GSt) :
    classifyBlock ep gs [] = ([], gs) := rfl

theorem classifyRules_append (ep : List Nat) : ∀ (l1 l2 : List (List Char)) (gs : GSt),
    classifyRules ep gs (l1 ++ l2) =
      ((classifyRules ep gs l1).1 ++
        (classifyRules ep (classifyRules ep gs l1).2 l2).1,
       (classifyRules ep (classifyRules ep gs l1).2 l2).2) := by
  intro l1
  induction l1 with
  | nil => intro l2 gs; simp [classifyRules]
  | cons r rest ih =>
    intro l2 gs
    simp [classifyRules, ih]

/-- C9: a rule block classifies to zero terms exactly when it is the
empty text; appending such a block to a keyframe compilation is
invisible (it is filtered out before any shape decision, raising
nothing); and the non-keyframe splitter never emits an empty block, so
no compilation path ever sees the filter drop a non-empty block. -/
theorem spec_C9_empty_blocks :
    (∀ (ep : List Nat) (gs : GSt) (r : List Char),
      (classifyBlock ep gs r).1 = [] ↔ r = []) ∧
    (∀ (ep : List Nat) (rules : List (List Char)),
      buildShape ep (rules ++ [[]]) true = buildShape ep rules true) ∧
    (∀ (out : List Char) (rules : List (List Char)),
      splitRules out = .ok rules → [] ∉ rules) := by
  refine ⟨classifyBlock_empty_iff, ?_, ?_⟩
  · intro ep rules
    have happ := classifyRules_append ep rules [[]] gs0
    have hnil : classifyRules ep (classifyRules ep gs0 rules).2 [[]] =
        ([[]], (classifyRules ep gs0 rules).2) := by
      simp [classifyRules, classifyBlock_nil]
    rw [hnil] at happ
    simp only [buildShape, happ, List.filter_append]
    simp [List.filter]
  · intro out rules h hmem
    have hne := splitLoop_blocks_ne_nil out 0 [] [] (by simp)
    simp only [splitRules] at h
    rcases hsl : splitLoop out 0 [] [] with ⟨rl, leftover⟩
    rw [hsl] at h hne
    by_cases hl : leftover.isEmpty
    · rw [if_pos hl] at h
      cases h
      exact hne [] hmem rfl
    · rw [if_neg hl] at h
      cases h

/-- C9 witness: the empty block classifies to no terms and its presence
changes nothing in a keyframe compilation. -/
theorem spec_C9_empty_blocks_witness :
    (classifyBlock [] gs0 []).1 = [] ∧
    buildShape [] [[]] true = buildShape [] [] true :=
  ⟨(spec_C9_empty_blocks.1 [] gs0 []).mpr rfl,
   spec_C9_empty_blocks.2.1 [] []⟩

/-! ### Claim C1: shape selection for expression-bearing templates -/

/-- Is the template node an arrow function? -/
def tmplIsArrow : Tmpl → Bool
  | .arrow _ _ => true
  | _ => false

/-- C1 counterexample: the template `color: ${colorVar};` — whose only
occurrence is an `InlineValue` marker in declaration-body position —
does not compile to the functional (arrow) shape: it collapses to the
bare concatenation `"color: " + colorVar + ";"` with no parameter list
and no trailing arguments. -/
theorem spec_C1_counterexample :
    transformTemplate stylisScenario id c1parts false =
      .ok ⟨.node (.add (.add (.lit "color: ".toList) (.exprRef (some 0)))
        (.lit ";".toList)), []⟩ ∧
    (transformTemplate stylisScenario id c1parts false).map
      (fun o => tmplIsArrow o.tmpl) = .ok false :=
  ⟨by decide, by decide⟩

/-- C1 (amended): the functional shape is produced whenever promoted
references exist (non-empty `exprVals`) — an arrow with the class-name
parameter first, the rule-block array as body and `exprVals` as trailing
arguments — but a non-keyframe compilation whose only expression
occurrences are inline values and whose blocks all pass the simple-class
check does not reach it: `color: ${colorVar};` collapses to
`"color: " + colorVar + ";"` with the expression embedded inline. -/
theorem spec_C1_functional_shape :
    (∀ (ep : List Nat) (rules : List (List Char)),
      (classifyRules ep gs0 rules).2.exprVals ≠ [] →
      buildShape ep rules false =
        .ok (functionalShape (classifyRules ep gs0 rules).2
          ((classifyRules ep gs0 rules).1.filter (fun a => !a.isEmpty)))) ∧
    transformTemplate stylisScenario id c1parts false =
      .ok ⟨.node (.add (.add (.lit "color: ".toList) (.exprRef (some 0)))
        (.lit ";".toList)), []⟩ := by
  constructor
  · intro ep rules hne
    simp only [buildShape]
    rw [if_neg Bool.false_ne_true,
      if_neg (fun hh => hne (List.length_eq_zero.mp hh))]
  · decide

/-- C1 witness: a selector-position marker forces the functional shape. -/
theorem spec_C1_functional_shape_witness :
    buildShape [4] [Char.ofNat 231 :: "\x7bcolor:red\x7d".toList] false =
      .ok (functionalShape
        (classifyRules [4] gs0 [Char.ofNat 231 :: "\x7bcolor:red\x7d".toList]).2
        ((classifyRules [4] gs0 [Char.ofNat 231 :: "\x7bcolor:red\x7d".toList]).1.filter
          (fun a => !a.isEmpty))) :=
  spec_C1_functional_shape.1 [4] [Char.ofNat 231 :: "\x7bcolor:red\x7d".toList] (by decide)

end StyledTransformer
